import Mathlib

/-!
Verification development for the shrubbery server (session/presence plane).

The Rust sources under src/ are shallowly embedded:
* `serde_json::Value` is the inductive `Json` (numbers restricted to integers,
  which covers every numeric field the protocol uses);
* `HashMap` is an association list consulted through `lookupAL`, mutated
  through `insertAL` / `eraseKeyAL` (insert overwrites, erase removes the key);
* `Instant` is a `Nat` of seconds except where 64-bit overflow matters
  (`instant_add_secs`), where the Unix `Timespec.tv_sec : i64` representation
  is explicit;
* randomness (minted token suffixes) and results of external calls (the doc
  manager, channel sends) are explicit parameters of the embedded functions;
* the async session loop of `socket_processor.rs` is a step function over an
  explicit event alphabet (inbound frame / drained presence batch / EOF /
  read error); transport writes are modelled as succeeding.
-/

namespace Shrubbery

/-- Model of `serde_json::Value`, with numbers restricted to integers. -/
inductive Json where
  | null
  | bool (b : Bool)
  | num (n : Int)
  | str (s : String)
  | arr (elems : List Json)
  | obj (fields : List (String × Json))

/-- Association-list lookup: the model of `HashMap::get`. -/
def lookupAL {κ α : Type} [DecidableEq κ] : List (κ × α) → κ → Option α
  | [], _ => none
  | p :: rest, k => if p.1 = k then some p.2 else lookupAL rest k

/-- Remove every pair with the given key: the model of `HashMap::remove`. -/
def eraseKeyAL {κ α : Type} [DecidableEq κ] : List (κ × α) → κ → List (κ × α)
  | [], _ => []
  | p :: rest, k => if p.1 = k then eraseKeyAL rest k else p :: eraseKeyAL rest k

/-- Overwriting insert: the model of `HashMap::insert`. -/
def insertAL {κ α : Type} [DecidableEq κ] (l : List (κ × α)) (k : κ) (v : α) :
    List (κ × α) :=
  (k, v) :: eraseKeyAL l k


/-! ## Authorizer (src/server/src/state/authorizer.rs)

Instants are seconds (`Nat`); `Duration::from_secs` amounts are added directly.
The random 30-character alphanumeric suffix produced by `random_alphanum` is an
explicit argument of `mint_token`.  The `Arc<Mutex<..>>` wrapper is dropped:
`Inner` is passed and returned by value. -/

/-- Model of `authorizer::Entry`. -/
structure Entry where
  user : String
  expiry : Nat
  info : Option Json

/-- Model of `authorizer::Inner`: the state behind the mutex. -/
structure Inner where
  root_token : String
  by_token : List (String × Entry)
  by_user : List (String × List String)

/-- The synthetic root entry built inside `Authorizer::authenticate`
(`expiry = Instant::now() + Duration::from_secs(60*60*24*365*100)`). -/
def rootEntry (now : Nat) : Entry :=
  ⟨"root", now + 60 * 60 * 24 * 365 * 100, none⟩

/-- Model of `Authorizer::mint_token`, with the random alphanumeric suffix `rand`
passed in.  Returns the new state and the token string. -/
def mint_token (inner : Inner) (entry : Entry) (rand : String) : Inner × String :=
  let user := entry.user
  let token := "shrubtoken1:" ++ rand
  let by_token := insertAL inner.by_token token entry
  let by_user :=
    insertAL inner.by_user user ((lookupAL inner.by_user user).getD [] ++ [token])
  (⟨inner.root_token, by_token, by_user⟩, token)

/-- Model of `Authorizer::authenticate` at instant `now`. -/
def authenticate (inner : Inner) (token : String) (now : Nat) : Option Entry :=
  if inner.root_token = token then some (rootEntry now)
  else
    match lookupAL inner.by_token token with
    | none => none
    | some entry => if entry.expiry < now then none else some entry

/-- The `for token in tokens { inner.by_token.remove(&token) }` loop of
`revoke_tokens_for_user`. -/
def removeTokens (l : List (String × Entry)) (ts : List String) :
    List (String × Entry) :=
  ts.foldl (fun acc t => eraseKeyAL acc t) l

/-- Model of `Authorizer::revoke_tokens_for_user`. -/
def revoke_tokens_for_user (inner : Inner) (user : String) : Inner :=
  if user = "root" then inner
  else
    match lookupAL inner.by_user user with
    | some tokens =>
        ⟨inner.root_token, removeTokens inner.by_token tokens,
          eraseKeyAL inner.by_user user⟩
    | none => ⟨inner.root_token, inner.by_token, eraseKeyAL inner.by_user user⟩

/-- States whose two maps are consistent, as every state reached from
`Authorizer::new` by `mint_token`/`revoke_tokens_for_user` with fresh minted
tokens is: keys are unique, every token entry is listed in its user's
by-user index, and every token the index lists maps to that user. -/
def WellFormed (inner : Inner) : Prop :=
  (inner.by_token.map (·.1)).Nodup ∧
  (inner.by_user.map (·.1)).Nodup ∧
  (∀ p ∈ inner.by_token, p.1 ∈ (lookupAL inner.by_user p.2.user).getD []) ∧
  (∀ q ∈ inner.by_user, ∀ t ∈ q.2,
    (lookupAL inner.by_token t).map Entry.user = some q.1)


/-! ## DocId and its ULID wire form (src/common/src/lib.rs, ulid crate)

`DocId(pub u128)` is a `Nat` below `2 ^ 128`.  `Display` renders the value as
26 Crockford base-32 characters, most significant first; `from_str` accepts
either case, rejects any other length or character, and accumulates with
`value = (value << 5) | bits` on `u128` (high bits shifted out are dropped,
hence the `% 2 ^ 128`). -/

def u128Mod : Nat := 2 ^ 128

/-- The Crockford base-32 alphabet the ulid crate encodes with. -/
def crockford : List Char :=
  ['0', '1', '2', '3', '4', '5', '6', '7', '8', '9', 'A', 'B', 'C', 'D', 'E',
   'F', 'G', 'H', 'J', 'K', 'M', 'N', 'P', 'Q', 'R', 'S', 'T', 'V', 'W', 'X',
   'Y', 'Z']

def encodeChar (d : Nat) : Char := crockford.getD d '0'

def decodeCharAux : List Char → Char → Nat → Option Nat
  | [], _, _ => none
  | a :: rest, c, i => if a = c then some i else decodeCharAux rest c (i + 1)

/-- Case-insensitive Crockford digit value (I, L, O, U are invalid). -/
def decodeChar (c : Char) : Option Nat := decodeCharAux crockford c.toUpper 0

/-- The `k` base-32 digits of `n`, least significant first. -/
def digitsLE : Nat → Nat → List Nat
  | 0, _ => []
  | k + 1, n => n % 32 :: digitsLE k (n / 32)

/-- Model of `Display for DocId` via `Display for Ulid`. -/
def ulidEncode (n : Nat) : String := String.mk ((digitsLE 26 n).reverse.map encodeChar)

def decodeChars : List Char → Option (List Nat)
  | [] => some []
  | c :: rest =>
    match decodeChar c, decodeChars rest with
    | some d, some ds => some (d :: ds)
    | _, _ => none

/-- Model of `DocId::from_str` via `Ulid::from_string`. -/
def ulidDecode (s : String) : Option Nat :=
  if s.data.length = 26 then
    (decodeChars s.data).map fun ds =>
      ds.foldl (fun acc d => (acc * 32 + d) % u128Mod) 0
  else none

/-! ## Frames (src/common/src/frame.rs) -/

/-- Model of `frame::PresenceFrame` (`client: u32`, `doc: DocId`). -/
structure PresenceFrame where
  client : Nat
  doc : Nat
  user : String
  info : Option Json
  presence : Option Json

/-- Model of `frame::FrameType` (`lifetime_seconds: u64`). -/
inductive FrameType where
  | Authenticate (token : String)
  | Ok
  | Error (error : String)
  | MintToken (user : String) (info : Option Json) (lifetime_seconds : Nat)
  | MintTokenResponse (token : String)
  | RevokeTokensForUser (user : String)
  | Open (doc : Nat)
  | UpdatePresence (doc : Nat) (presence : Json)
  | Presence (updates : List PresenceFrame)
  | UnknownFrame

/-- Model of `frame::Frame` (`id: i32`, `reply_to: Option<i32>`). -/
structure Frame where
  id : Int
  reply_to : Option Int
  frame : FrameType

def Frame.new (id : Int) (frame : FrameType) : Frame := ⟨id, none, frame⟩

def Frame.new_reply (id reply_to : Int) (inner : FrameType) : Frame :=
  ⟨id, some reply_to, inner⟩

/-! ## The serde wire model

Serialization/deserialization is modelled at the level of JSON values; an
object is its field list and is consulted by key, so two serializations that
differ only in field order are the same object up to `lookupAL`.  The derived
serde impls behave as follows and are mirrored exactly:
* `rename_all = "camelCase"` on `Frame` renames its fields (`replyTo`); on the
  enum `FrameType` it renames the variant tags only, so `lifetime_seconds`
  keeps its Rust name on the wire;
* `Option<T>` serializes `None` as `null` and `Some(v)` as `v`, and
  deserializes a missing field or `null` as `None` — so `Some(Value::Null)`
  collapses to `None` on a round trip;
* the `#[serde(other)] UnknownFrame` variant deserializes from any unknown
  tag;
* integer fields are range-checked (`i32`, `u32`, `u64`). -/

def i64Max : Int := 2 ^ 63 - 1

def u32Mod : Nat := 2 ^ 32

def u64Mod : Nat := 2 ^ 64

def serializeOpt : Option Json → Json
  | none => Json.null
  | some v => v

def serializeDocId (d : Nat) : Json := Json.str (ulidEncode d)

def serializePresenceFrame (p : PresenceFrame) : Json :=
  Json.obj [("client", Json.num p.client), ("doc", serializeDocId p.doc),
    ("user", Json.str p.user), ("info", serializeOpt p.info),
    ("presence", serializeOpt p.presence)]

/-- The flattened, internally tagged fields of a `FrameType` value. -/
def frameTypeFields : FrameType → List (String × Json)
  | .Authenticate token => [("type", Json.str "authenticate"), ("token", Json.str token)]
  | .Ok => [("type", Json.str "ok")]
  | .Error e => [("type", Json.str "error"), ("error", Json.str e)]
  | .MintToken user info l =>
      [("type", Json.str "mintToken"), ("user", Json.str user),
       ("info", serializeOpt info), ("lifetime_seconds", Json.num l)]
  | .MintTokenResponse token =>
      [("type", Json.str "mintTokenResponse"), ("token", Json.str token)]
  | .RevokeTokensForUser user =>
      [("type", Json.str "revokeTokensForUser"), ("user", Json.str user)]
  | .Open doc => [("type", Json.str "open"), ("doc", serializeDocId doc)]
  | .UpdatePresence doc presence =>
      [("type", Json.str "updatePresence"), ("doc", serializeDocId doc),
       ("presence", presence)]
  | .Presence updates =>
      [("type", Json.str "presence"),
       ("updates", Json.arr (updates.map serializePresenceFrame))]
  | .UnknownFrame => [("type", Json.str "unknownFrame")]

/-- An `Option<i32>` value: `None` is `null`. -/
def serializeOptI32 : Option Int → Json
  | none => Json.null
  | some r => Json.num r

/-- Model of `serde_json::to_string` of a `Frame`, as a JSON value. -/
def serializeFrame (f : Frame) : Json :=
  Json.obj (("id", Json.num f.id) ::
    ("replyTo", serializeOptI32 f.reply_to) ::
    frameTypeFields f.frame)

/-- Whether `-2^31 ≤ n ≤ 2^31 - 1`, by cases on the `Int` representation (so that
partial evaluation on a symbolic `Nat` stays cheap). -/
def fitsI32 : Int → Bool
  | Int.ofNat m => decide (m < 2 ^ 31)
  | Int.negSucc m => decide (m < 2 ^ 31)

def parseI32 : Json → Option Int
  | Json.num n => if fitsI32 n then some n else none
  | _ => none

def parseU32 : Json → Option Nat
  | Json.num (Int.ofNat m) => if m < u32Mod then some m else none
  | _ => none

def parseU64 : Json → Option Nat
  | Json.num (Int.ofNat m) => if m < u64Mod then some m else none
  | _ => none

def parseStr : Json → Option String
  | Json.str s => some s
  | _ => none

def parseDocId : Json → Option Nat
  | Json.str s => ulidDecode s
  | _ => none

/-- An `Option<serde_json::Value>` field: missing or `null` is `None`. -/
def optJsonField (fields : List (String × Json)) (k : String) : Option Json :=
  match lookupAL fields k with
  | none => none
  | some Json.null => none
  | some v => some v

/-- An `Option<i32>` field: missing or `null` is `None`; otherwise i32. -/
def optI32Field (fields : List (String × Json)) (k : String) : Option (Option Int) :=
  match lookupAL fields k with
  | none => some none
  | some Json.null => some none
  | some v => (parseI32 v).map some

def parsePresenceFrame : Json → Option PresenceFrame
  | Json.obj fields => do
      let client ← (lookupAL fields "client").bind parseU32
      let doc ← (lookupAL fields "doc").bind parseDocId
      let user ← (lookupAL fields "user").bind parseStr
      some (PresenceFrame.mk client doc user (optJsonField fields "info")
        (optJsonField fields "presence"))
  | _ => none

def parsePresenceList : List Json → Option (List PresenceFrame)
  | [] => some []
  | j :: rest => do
      let p ← parsePresenceFrame j
      let ps ← parsePresenceList rest
      some (p :: ps)

/-- The internally tagged `FrameType` deserializer: dispatch on `type`,
unknown tags fall to `UnknownFrame` (`#[serde(other)]`). -/
def parseFrameType (fields : List (String × Json)) : Option FrameType := do
  let tag ← (lookupAL fields "type").bind parseStr
  match tag with
  | "authenticate" => do
      let token ← (lookupAL fields "token").bind parseStr
      some (FrameType.Authenticate token)
  | "ok" => some FrameType.Ok
  | "error" => do
      let e ← (lookupAL fields "error").bind parseStr
      some (FrameType.Error e)
  | "mintToken" => do
      let user ← (lookupAL fields "user").bind parseStr
      let l ← (lookupAL fields "lifetime_seconds").bind parseU64
      some (FrameType.MintToken user (optJsonField fields "info") l)
  | "mintTokenResponse" => do
      let token ← (lookupAL fields "token").bind parseStr
      some (FrameType.MintTokenResponse token)
  | "revokeTokensForUser" => do
      let user ← (lookupAL fields "user").bind parseStr
      some (FrameType.RevokeTokensForUser user)
  | "open" => do
      let doc ← (lookupAL fields "doc").bind parseDocId
      some (FrameType.Open doc)
  | "updatePresence" => do
      let doc ← (lookupAL fields "doc").bind parseDocId
      let presence ← lookupAL fields "presence"
      some (FrameType.UpdatePresence doc presence)
  | "presence" =>
      match lookupAL fields "updates" with
      | some (Json.arr elems) => (parsePresenceList elems).map FrameType.Presence
      | _ => none
  | _ => some FrameType.UnknownFrame

/-- Model of `serde_json::from_str` to a `Frame`, from a JSON value. -/
def parseFrame : Json → Option Frame
  | Json.obj fields => do
      let idv ← (lookupAL fields "id").bind parseI32
      let rt ← optI32Field fields "replyTo"
      let ft ← parseFrameType fields
      some (Frame.mk idv rt ft)
  | _ => none

def noSomeNull : Option Json → Bool
  | some Json.null => false
  | _ => true

def wfOptI32 : Option Int → Bool
  | none => true
  | some r => fitsI32 r

/-- The `PresenceFrame` values a Rust `PresenceFrame` can hold, with no
`Some(Value::Null)` optional field. -/
def wfPresenceFrame (p : PresenceFrame) : Bool :=
  decide (p.client < u32Mod) && decide (p.doc < u128Mod) &&
    noSomeNull p.info && noSomeNull p.presence

def wfFrameType : FrameType → Bool
  | .MintToken _ info l => noSomeNull info && decide (l < u64Mod)
  | .Open doc => decide (doc < u128Mod)
  | .UpdatePresence doc _ => decide (doc < u128Mod)
  | .Presence updates => updates.all wfPresenceFrame
  | _ => true

/-- The `Frame` values a Rust `Frame` can hold (machine-integer ranges), with no
optional JSON field equal to `Some(Value::Null)`. -/
def wellFormedFrame (f : Frame) : Bool :=
  fitsI32 f.id && wfOptI32 f.reply_to && wfFrameType f.frame

/-! ## Session state machine (src/server/src/proto/socket_processor.rs)

One connection is modelled as `session_accept` on the first inbound frame
followed by `run_events` over an explicit event alphabet: the realized
schedule of the `select!` loop.  External results are parameters: `Env.now`
is `Instant::now()` as a Unix `tv_sec : i64`, `Env.mintedToken` the string
`Authorizer::mint_token` returned, `Env.updateOk` whether
`DocHandle::update_presence`'s channel send succeeded.  `DocManager::open`
never returns an error (its retry loop only exits by returning a handle), and
transport writes are modelled as succeeding. -/

/-- Model of `Instant + Duration::from_secs(secs)` on a Unix `Timespec`:
`tv_sec.checked_add_unsigned(secs)`; `None` means the `expect` in
`Instant::add` panics ("overflow when adding duration to instant"). -/
def instant_add_secs (tv_sec : Int) (secs : Nat) : Option Int :=
  if tv_sec + (secs : Int) ≤ i64Max then some (tv_sec + (secs : Int)) else none

/-- Results of the external calls one frame's processing can make. -/
structure Env where
  now : Int
  mintedToken : String
  updateOk : Bool

/-- Outcome of `State::process_frame`: `Ok(())`, `Err(message)`, or a panic
(the `MintToken` expiry overflow). -/
inductive StepRes where
  | ok
  | err (msg : String)
  | panicked
deriving DecidableEq

/-- The per-connection state `State` (the fields the frame traffic depends
on): `next_frame_id`, the authenticated user, the open-doc map's keys. -/
structure Sess where
  next_frame_id : Int
  authUser : String
  openDocs : List Nat

/-- One arm of the `select!` in `State::run`: an inbound frame (with its
environment), a drained presence batch (the first `recv` plus the batches
`try_recv` drains), stream end, or a read error. -/
inductive SEvent where
  | inbound (f : Frame) (env : Env)
  | presenceBatch (first : List PresenceFrame) (extra : List (List PresenceFrame))
  | closedStream
  | readErr

/-- Why `State::run` returned. -/
inductive SExit where
  | clean
  | fatal
  | panicked
deriving DecidableEq

/-- Model of `State::process_frame`: (new state, frames sent inside the handler,
outcome).  Arms in source order; the wildcard covers `Authenticate`, `Ok`,
`MintTokenResponse`, `Presence` and `UnknownFrame` (logged and ignored). -/
def process_frame (s : Sess) (f : Frame) (env : Env) :
    Sess × List Frame × StepRes :=
  match f.frame with
  | .Error _ => (s, [], .err "unexpected error frame")
  | .MintToken _ _ lifetime_seconds =>
      if s.authUser ≠ "root" then (s, [], .err "forbidden")
      else
        match instant_add_secs env.now lifetime_seconds with
        | none => (s, [], .panicked)
        | some _ =>
            ({ s with next_frame_id := s.next_frame_id + 1 },
             [Frame.new_reply s.next_frame_id f.id
               (.MintTokenResponse env.mintedToken)], .ok)
  | .RevokeTokensForUser user =>
      if s.authUser ≠ "root" then (s, [], .err "forbidden")
      else if user = "root" then
        (s, [], .err "cannot use RevokeTokensForUser on root")
      else
        ({ s with next_frame_id := s.next_frame_id + 1 },
         [Frame.new_reply s.next_frame_id f.id .Ok], .ok)
  | .Open doc =>
      (⟨s.next_frame_id + 1, s.authUser, doc :: s.openDocs⟩,
       [Frame.new_reply s.next_frame_id f.id .Ok], .ok)
  | .UpdatePresence doc _ =>
      if doc ∈ s.openDocs then
        if env.updateOk then (s, [], .ok) else (s, [], .err "channel closed")
      else (s, [], .err "doc not open")
  | _ => (s, [], .ok)

/-- One iteration of the `select!` loop in `State::run`: the frames it puts
on the wire and whether the loop continues.  On a `process_frame` error the
session sends `Error{replyTo: frame.id}` (which itself bumps
`next_frame_id`) and then bumps `next_frame_id` once more (lines 155-156),
and continues. -/
def run_step (s : Sess) (e : SEvent) : Sess × List Frame × Option SExit :=
  match e with
  | .closedStream => (s, [], some .clean)
  | .readErr => (s, [], some .fatal)
  | .presenceBatch first extra =>
      ({ s with next_frame_id := s.next_frame_id + 1 },
       [Frame.new s.next_frame_id (.Presence (first ++ extra.flatten))], none)
  | .inbound f env =>
      match process_frame s f env with
      | (s1, outs, .ok) => (s1, outs, none)
      | (s1, outs, .panicked) => (s1, outs, some .panicked)
      | (s1, outs, .err msg) =>
          ({ s1 with next_frame_id := s1.next_frame_id + 2 },
           outs ++ [Frame.new_reply s1.next_frame_id f.id (.Error msg)], none)

/-- The frames `State::run` sends across a sequence of events (stopping when
an event ends the loop). -/
def run_events (s : Sess) : List SEvent → List Frame
  | [] => []
  | e :: rest =>
      match run_step s e with
      | (s1, outs, none) => outs ++ run_events s1 rest
      | (_, outs, some _) => outs

/-- Model of `State::accept` on the first inbound frame: the frames sent and either
the authenticated entry or the error that closed the connection.  A
non-`Authenticate` first frame returns `Err` at once (line 105), before the
error-reply send; only the invalid-token path sends the best-effort
`Error` reply with id 1. -/
def session_accept (inner : Inner) (now : Nat) (frame : Frame) :
    List Frame × Except String Entry :=
  match frame.frame with
  | .Authenticate token =>
      match authenticate inner token now with
      | some e => ([Frame.new_reply 1 frame.id .Ok], .ok e)
      | none =>
          ([Frame.new_reply 1 frame.id (.Error "invalid token")],
           .error "invalid token")
  | _ => ([], .error "Expected Authenticate frame")

/-- Everything one connection puts on the wire: the accept-stage frames, then
(if authentication succeeded) the run-loop frames from the initial state
`{next_frame_id := 2, auth := entry, open := {}}`. -/
def connection_trace (inner : Inner) (now : Nat) (first : Frame)
    (events : List SEvent) : List Frame :=
  match session_accept inner now first with
  | (outs, .error _) => outs
  | (outs, .ok e) => outs ++ run_events ⟨2, e.user, []⟩ events

/-! ## Document worker (src/server/src/doc_manager.rs)

The worker's three `select!` branches as step functions.  Egress channels are
named by opaque ids; `ready c = true` means `try_send` on channel `c`
succeeds (there is capacity), `false` that it would block and the update is
dropped.  The step returns the list of (channel, payload) deliveries that
succeeded.  Instants are seconds; `duration_since` saturates at zero, as
truncated `Nat` subtraction does. -/

/-- Worker-loop state: `next_handle_id`, `client_map` (handle id to egress
channel), `presence_map` (client id to `(last_update, frame)`). -/
structure WorkerState where
  next_handle_id : Nat
  client_map : List (Nat × Nat)
  presence_map : List (Nat × (Nat × PresenceFrame))

/-- The fields of `DocHandle` a worker builds for an open request. -/
structure DocHandleM where
  doc : Nat
  id : Nat
  user : String
  user_info : Option Json

/-- The open-request branch: allocate `id = next_handle_id`, bump it, install
the egress channel, reply with the handle. -/
def worker_open_step (w : WorkerState) (doc : Nat) (user : String)
    (user_info : Option Json) (egress : Nat) : WorkerState × DocHandleM :=
  (⟨w.next_handle_id + 1, insertAL w.client_map w.next_handle_id egress,
    w.presence_map⟩,
   ⟨doc, w.next_handle_id, user, user_info⟩)

/-- The presence branch: overwrite `presence_map[frame.client]`, then
`try_send(vec![frame])` to every client map entry whose handle id differs
from the sender. -/
def worker_presence_step (w : WorkerState) (last_update : Nat)
    (frame : PresenceFrame) (ready : Nat → Bool) :
    WorkerState × List (Nat × List PresenceFrame) :=
  (⟨w.next_handle_id, w.client_map,
    insertAL w.presence_map frame.client (last_update, frame)⟩,
   w.client_map.filterMap fun peer =>
     if peer.1 ≠ frame.client then
       if ready peer.2 then some (peer.2, [frame]) else none
     else none)

/-- The ticker branch: evict entries older than 30 seconds, then, if any
remain, `try_send` the full snapshot to every subscriber. -/
def worker_tick_step (w : WorkerState) (now : Nat) (ready : Nat → Bool) :
    WorkerState × List (Nat × List PresenceFrame) :=
  let presence_map := w.presence_map.filter fun p => decide (now - p.2.1 < 30)
  (⟨w.next_handle_id, w.client_map, presence_map⟩,
   if presence_map.length > 0 then
     w.client_map.filterMap fun peer =>
       if ready peer.2 then some (peer.2, presence_map.map (·.2.2)) else none
   else [])

/-! ## WebSocket carriers

`framed_websocket::Adapter` is the carrier the server wires up
(`HttpMultiplexer` hands every upgraded socket to
`SocketProcessor<Adapter<Socket>>`); `FramedConnection`'s
`poll_websocket_next` (src/common/src/framed.rs) is the other carrier in the
sources.  JSON text decoding is abstracted by a `parse` parameter. -/

/-- Model of `framed_websocket::ShrubHandshakeState`. -/
inductive ShrubHandshakeState where
  | Pre
  | Post
  | Missing
deriving DecidableEq

/-- One underlying WebSocket message. -/
inductive WsMsg where
  | text (s : String)
  | binary
  | control

/-- What the inner `WebSocketStream::poll_next` yielded. -/
inductive WsPoll where
  | pending
  | streamEnded
  | connClosed
  | otherErr
  | msg (m : WsMsg)

/-- What the carrier's `poll_next` returns to the session. -/
inductive PollOut where
  | pending
  | streamEnd
  | ioError
  | invalidData (msg : String)
  | invalidJson
  | frame (f : Frame)

/-- Model of `Adapter::poll_next` (src/server/src/proto/framed_websocket.rs):
binary messages are ignored ("ignore binary frames for forwards
compatibility", line 59) and control frames are ignored, in every handshake
state; `Err(ConnectionClosed)` ends the stream; only a wrong first text
message, the dead `Missing` state, or a JSON parse failure yield
invalid-data errors. -/
def adapter_poll_next (parse : String → Option Frame)
    (st : ShrubHandshakeState) (input : WsPoll) : ShrubHandshakeState × PollOut :=
  match input with
  | .pending => (st, .pending)
  | .streamEnded => (st, .pending)
  | .connClosed => (st, .streamEnd)
  | .otherErr => (st, .ioError)
  | .msg .binary => (st, .pending)
  | .msg .control => (st, .pending)
  | .msg (.text s) =>
      match st with
      | .Pre =>
          if s = "shrub1\n" then (.Post, .pending)
          else (.Pre, .invalidData "expected handshake")
      | .Missing => (.Missing, .invalidData "missing handshake")
      | .Post =>
          match parse s with
          | some f => (.Post, .frame f)
          | none => (.Post, .invalidJson)

/-- Model of `poll_websocket_next` (src/common/src/framed.rs): the carrier the unused
`FramedConnection::accept_websocket` path reads with; binary messages are
invalid data. -/
def poll_websocket_next (parse : String → Option Frame) (input : WsPoll) :
    PollOut :=
  match input with
  | .pending => .pending
  | .streamEnded => .streamEnd
  | .connClosed => .ioError
  | .otherErr => .ioError
  | .msg .binary => .invalidData "unexpected binary message"
  | .msg .control => .pending
  | .msg (.text t) =>
      match parse t with
      | some f => .frame f
      | none => .invalidJson

/-! ## Concrete instances used by witnesses and counterexamples -/

/-- The `FrameType::Authenticate` discriminator. -/
def isAuthenticateFrame : FrameType → Bool
  | .Authenticate _ => true
  | _ => false

/-- A mutation of the Authorizer state: one `mint_token` (with its random
suffix) or one `revoke_tokens_for_user` call. -/
inductive AuthOp where
  | mint (entry : Entry) (rand : String)
  | revoke (user : String)

def applyAuthOp (inner : Inner) : AuthOp → Inner
  | .mint entry rand => (mint_token inner entry rand).1
  | .revoke user => revoke_tokens_for_user inner user

def applyAuthOps (inner : Inner) (ops : List AuthOp) : Inner :=
  ops.foldl applyAuthOp inner

/-- A fresh Authorizer state whose root token has the `random_root_token`
shape: `shrubtoken1:ROOT` plus 30 alphanumerics. -/
def c1Inner : Inner :=
  ⟨"shrubtoken1:ROOTabcdefghijklmnopqrstuvwxyz0123", [], []⟩

/-- Root mints a token for user "root" (with a 30-alphanumeric suffix, as
`random_alphanum` produces). -/
def c1Minted : Inner × String :=
  mint_token c1Inner ⟨"root", 100, none⟩ "abcdefghijklmnopqrstuvwxyz0123"

/-- A state holding one token for user "u" expiring at instant 5. -/
def c3Inner : Inner := ⟨"R", [("t", ⟨"u", 5, none⟩)], [("u", ["t"])]⟩

/-- A well-formed state with one token each for "alice" and "bob". -/
def c4Inner : Inner :=
  ⟨"R", [("ta", ⟨"alice", 5, none⟩), ("tb", ⟨"bob", 7, none⟩)],
   [("alice", ["ta"]), ("bob", ["tb"])]⟩

/-- An authenticated session (user "alice") with doc 7 open. -/
def c6Sess : Sess := ⟨2, "alice", [7]⟩

def c6Frame : Frame := ⟨-3, none, .UpdatePresence 7 Json.null⟩

/-- Environment in which the presence-ingress send fails (worker gone). -/
def c6Env : Env := ⟨0, "", false⟩

/-- A frame whose optional `info` field is `Some(Value::Null)`. -/
def c8Bad : Frame := ⟨1, none, .MintToken "alice" (some Json.null) 0⟩

/-- What `c8Bad` becomes after one serialize/parse round trip. -/
def c8Collapsed : Frame := ⟨1, none, .MintToken "alice" none 0⟩

instance (inner : Inner) : Decidable (WellFormed inner) := by
  unfold WellFormed
  infer_instance

/-! ## Lemmas and claim theorems -/

theorem lookupAL_eraseKeyAL {κ α : Type} [DecidableEq κ]
    (l : List (κ × α)) (k k' : κ) :
    lookupAL (eraseKeyAL l k) k' = if k' = k then none else lookupAL l k' := by
  induction l with
  | nil => simp [eraseKeyAL, lookupAL]
  | cons p rest ih =>
    by_cases h1 : p.1 = k
    · rw [eraseKeyAL]
      rw [if_pos h1, ih]
      by_cases h2 : k' = k
      · simp [h2]
      · have hp : ¬ p.1 = k' := fun he => h2 (he.symm.trans h1)
        simp [h2, lookupAL, hp]
    · rw [eraseKeyAL]
      rw [if_neg h1, lookupAL, ih, lookupAL]
      by_cases h2 : p.1 = k'
      · have h3 : ¬ k' = k := fun he => h1 (h2.trans he)
        simp [h2, h3]
      · simp [h2]

theorem lookupAL_insertAL_self {κ α : Type} [DecidableEq κ]
    (l : List (κ × α)) (k : κ) (v : α) : lookupAL (insertAL l k v) k = some v := by
  simp [insertAL, lookupAL]

theorem lookupAL_insertAL_ne {κ α : Type} [DecidableEq κ]
    (l : List (κ × α)) (k k' : κ) (v : α) (h : k' ≠ k) :
    lookupAL (insertAL l k v) k' = lookupAL l k' := by
  rw [insertAL, lookupAL, if_neg (fun he => h he.symm), lookupAL_eraseKeyAL,
    if_neg h]

theorem lookupAL_mem {κ α : Type} [DecidableEq κ]
    {l : List (κ × α)} {k : κ} {v : α} (h : lookupAL l k = some v) : (k, v) ∈ l := by
  induction l with
  | nil => simp [lookupAL] at h
  | cons p rest ih =>
    by_cases h1 : p.1 = k
    · rw [lookupAL, if_pos h1] at h
      have hp : p = (k, v) := by
        cases p
        simp at h1 h ⊢
        exact ⟨h1, h⟩
      exact hp ▸ List.mem_cons_self _ _
    · rw [lookupAL, if_neg h1] at h
      exact List.mem_cons_of_mem _ (ih h)

theorem mem_lookupAL {κ α : Type} [DecidableEq κ]
    {l : List (κ × α)} {k : κ} {v : α}
    (hmem : (k, v) ∈ l) (hnd : (l.map (·.1)).Nodup) : lookupAL l k = some v := by
  induction l with
  | nil => simp at hmem
  | cons p rest ih =>
    rw [List.map_cons, List.nodup_cons] at hnd
    rcases List.mem_cons.mp hmem with he | hm
    · rw [lookupAL, ← he]
      simp
    · have hk : ¬ p.1 = k := by
        intro he
        exact hnd.1 (he ▸ List.mem_map_of_mem (·.1) hm)
      rw [lookupAL, if_neg hk]
      exact ih hm hnd.2

theorem lookupAL_removeTokens (l : List (String × Entry)) (ts : List String)
    (t : String) :
    lookupAL (removeTokens l ts) t = if t ∈ ts then none else lookupAL l t := by
  induction ts generalizing l with
  | nil => simp [removeTokens]
  | cons t0 rest ih =>
    have hstep : removeTokens l (t0 :: rest) = removeTokens (eraseKeyAL l t0) rest := rfl
    rw [hstep, ih, lookupAL_eraseKeyAL]
    by_cases h1 : t ∈ rest
    · simp [h1]
    · by_cases h2 : t = t0 <;> simp [h1, h2]


theorem applyAuthOps_root_token (inner : Inner) (ops : List AuthOp) :
    (applyAuthOps inner ops).root_token = inner.root_token := by
  induction ops generalizing inner with
  | nil => rfl
  | cons op rest ih =>
    have hstep : applyAuthOps inner (op :: rest) =
        applyAuthOps (applyAuthOp inner op) rest := rfl
    rw [hstep, ih]
    cases op with
    | mint e r => rfl
    | revoke u2 =>
      show (revoke_tokens_for_user inner u2).root_token = inner.root_token
      unfold revoke_tokens_for_user
      by_cases h : u2 = "root"
      · simp [h]
      · rw [if_neg h]
        cases lookupAL inner.by_user u2 <;> rfl

/-- C1 (amended): the root token itself is immune — across any sequence of
`mint_token`/`revoke_tokens_for_user` calls the root token is unchanged and
still authenticates to the synthetic root entry — and no session whose
authenticated user is not "root" can mint at all; but (see the
counterexample) a root session can mint a token whose entry impersonates
user "root". -/
theorem root_token_immune_and_mint_root_gated (inner : Inner)
    (ops : List AuthOp) (now : Nat) :
    (applyAuthOps inner ops).root_token = inner.root_token ∧
    authenticate (applyAuthOps inner ops) inner.root_token now =
      some (rootEntry now) ∧
    (∀ (s : Sess) (f : Frame) (env : Env) user info lifetime,
      s.authUser ≠ "root" → f.frame = FrameType.MintToken user info lifetime →
      process_frame s f env = (s, [], .err "forbidden")) := by
  have h1 := applyAuthOps_root_token inner ops
  refine ⟨h1, ?_, ?_⟩
  · simp [authenticate, h1]
  · intro s f env user info lifetime hs hf
    simp [process_frame, hf, hs]

/-- C1 (counterexample): with a fresh Authorizer, a root-authenticated
session's `MintToken{user: "root"}` succeeds, and the minted token — a
different byte string from the root token — authenticates to an entry whose
user is "root". -/
theorem mint_can_impersonate_root_cex :
    (authenticate c1Minted.1 c1Minted.2 0).map Entry.user = some "root" ∧
    c1Minted.2 ≠ c1Inner.root_token ∧
    (process_frame ⟨2, "root", []⟩ ⟨-2, none, FrameType.MintToken "root" none 100⟩
      ⟨0, c1Minted.2, true⟩).2.2 = StepRes.ok := by
  refine ⟨rfl, ?_, rfl⟩
  decide

/-- C2 (amended): in the pre-auth state a first frame that is not
`Authenticate` makes `State::accept` return the "Expected Authenticate
frame" error at once, closing the connection without sending any reply
frame (the `Error` reply is only sent on the invalid-token path). -/
theorem preauth_non_authenticate_closes_silently (inner : Inner) (now : Nat)
    (f : Frame) (h : isAuthenticateFrame f.frame = false) :
    session_accept inner now f = ([], .error "Expected Authenticate frame") := by
  rcases hf : f.frame <;>
    simp [session_accept, hf, isAuthenticateFrame] at h ⊢

theorem preauth_non_authenticate_closes_silently_witness :
    session_accept c1Inner 0 ⟨-1, none, FrameType.Ok⟩ =
      ([], Except.error "Expected Authenticate frame") :=
  preauth_non_authenticate_closes_silently c1Inner 0 ⟨-1, none, FrameType.Ok⟩ rfl

/-- C2 (counterexample): on the first inbound frame `{id: -1, type: Ok}` the
server sends no frame at all — in particular no
`Error{"Expected Authenticate frame"}` reply — before closing. -/
theorem preauth_no_error_reply_cex :
    (session_accept c1Inner 0 ⟨-1, none, FrameType.Ok⟩).1 = [] ∧
    (session_accept c1Inner 0 ⟨-1, none, FrameType.Ok⟩).2 =
      Except.error "Expected Authenticate frame" :=
  ⟨rfl, rfl⟩

/-- C3 (amended): `authenticate(t)` returns `Some(e)` iff `t` equals the
root token by byte equality (`e` the synthetic root entry) or `t` is in the
token table with `now ≤ e.expiry`; at the exact boundary
`expiry == now` the entry IS returned (the code tests `expiry < now`), and
entries with `expiry < now` are reported as not authenticated. -/
theorem authenticate_characterization (inner : Inner) (t : String) (now : Nat)
    (e : Entry) :
    authenticate inner t now = some e ↔
      ((inner.root_token = t ∧ e = rootEntry now) ∨
        (inner.root_token ≠ t ∧ lookupAL inner.by_token t = some e ∧
          now ≤ e.expiry)) := by
  unfold authenticate
  by_cases hr : inner.root_token = t
  · simp [hr]
    exact eq_comm
  · simp [hr]
    rcases h : lookupAL inner.by_token t with _ | entry
    · simp
    · by_cases he : entry.expiry < now
      · simp [he]
        rintro rfl
        omega
      · simp [he]
        rintro rfl
        omega

/-- C3 (counterexample): at the exact boundary `expiry == now` (token "t"
expires at instant 5, authenticated at instant 5) `authenticate` returns
the stored entry, not `None`, and "t" is not the root token — refuting both
the `e.expiry > now` characterization and the boundary sentence. -/
theorem authenticate_boundary_cex :
    authenticate c3Inner "t" 5 = some ⟨"u", 5, none⟩ ∧
    c3Inner.root_token ≠ "t" := by
  exact ⟨rfl, by decide⟩

/-- C4: `revokeTokensForUser(u)`.  For `u = "root"` the state is unchanged;
for `u ≠ "root"` (on a consistent state): `u` leaves the by-user index,
every token whose table entry has `user = u` (and which is not the root
token itself) no longer authenticates, the root token authenticates exactly
as before, tokens of other users authenticate exactly as before, and other
users' index entries are unchanged. -/
theorem revoke_tokens_for_user_spec (inner : Inner) (u : String)
    (hwf : WellFormed inner) (hu : u ≠ "root") :
    (lookupAL (revoke_tokens_for_user inner u).by_user u = none) ∧
    (∀ t e now, lookupAL inner.by_token t = some e → e.user = u →
      t ≠ inner.root_token →
      authenticate (revoke_tokens_for_user inner u) t now = none) ∧
    (∀ now, authenticate (revoke_tokens_for_user inner u) inner.root_token now =
      authenticate inner inner.root_token now) ∧
    (∀ t e now, lookupAL inner.by_token t = some e → e.user ≠ u →
      authenticate (revoke_tokens_for_user inner u) t now =
        authenticate inner t now) ∧
    (∀ v, v ≠ u → lookupAL (revoke_tokens_for_user inner u).by_user v =
      lookupAL inner.by_user v) ∧
    (∀ inner0 : Inner, revoke_tokens_for_user inner0 "root" = inner0) := by
  obtain ⟨hndT, hndU, hwf3, hwf4⟩ := hwf
  have hRroot : (revoke_tokens_for_user inner u).root_token = inner.root_token := by
    unfold revoke_tokens_for_user
    rw [if_neg hu]
    cases hbu : lookupAL inner.by_user u <;> simp [hbu]
  refine ⟨?_, ?_, ?_, ?_, ?_, ?_⟩
  · unfold revoke_tokens_for_user
    rw [if_neg hu]
    rcases hbu : lookupAL inner.by_user u with _ | ts <;>
      simp [hbu, lookupAL_eraseKeyAL]
  · intro t e now hlook huser hrt
    have hmem := lookupAL_mem hlook
    have h3 := hwf3 (t, e) hmem
    rw [huser] at h3
    rcases hbu : lookupAL inner.by_user u with _ | ts
    · rw [hbu] at h3
      simp at h3
    · rw [hbu] at h3
      simp at h3
      have hR : revoke_tokens_for_user inner u =
          ⟨inner.root_token, removeTokens inner.by_token ts,
            eraseKeyAL inner.by_user u⟩ := by
        unfold revoke_tokens_for_user
        rw [if_neg hu, hbu]
      have hrt2 : ¬ (inner.root_token = t) := fun he => hrt he.symm
      rw [hR]
      simp [authenticate, hrt2, lookupAL_removeTokens, h3]
  · intro now
    simp [authenticate, hRroot]
  · intro t e now hlook hne
    by_cases hrt : inner.root_token = t
    · simp [authenticate, hRroot, hrt]
    · rcases hbu : lookupAL inner.by_user u with _ | ts
      · have hR0 : revoke_tokens_for_user inner u =
            ⟨inner.root_token, inner.by_token, eraseKeyAL inner.by_user u⟩ := by
          unfold revoke_tokens_for_user
          rw [if_neg hu, hbu]
        rw [hR0]
        simp [authenticate]
      · have hq := lookupAL_mem hbu
        by_cases hts : t ∈ ts
        · exfalso
          have h4 := hwf4 (u, ts) hq t hts
          rw [hlook] at h4
          simp at h4
          exact hne h4
        · have hR : revoke_tokens_for_user inner u =
              ⟨inner.root_token, removeTokens inner.by_token ts,
                eraseKeyAL inner.by_user u⟩ := by
            unfold revoke_tokens_for_user
            rw [if_neg hu, hbu]
          rw [hR]
          simp [authenticate, hrt, lookupAL_removeTokens, hts]
  · intro v hv
    unfold revoke_tokens_for_user
    rw [if_neg hu]
    rcases hbu : lookupAL inner.by_user u with _ | ts <;>
      simp [hbu, lookupAL_eraseKeyAL, hv]
  · intro inner0
    unfold revoke_tokens_for_user
    simp

theorem revoke_tokens_for_user_spec_witness :
    (lookupAL (revoke_tokens_for_user c4Inner "alice").by_user "alice" = none) ∧
    (∀ t e now, lookupAL c4Inner.by_token t = some e → e.user = "alice" →
      t ≠ c4Inner.root_token →
      authenticate (revoke_tokens_for_user c4Inner "alice") t now = none) ∧
    (∀ now, authenticate (revoke_tokens_for_user c4Inner "alice")
      c4Inner.root_token now = authenticate c4Inner c4Inner.root_token now) ∧
    (∀ t e now, lookupAL c4Inner.by_token t = some e → e.user ≠ "alice" →
      authenticate (revoke_tokens_for_user c4Inner "alice") t now =
        authenticate c4Inner t now) ∧
    (∀ v, v ≠ "alice" →
      lookupAL (revoke_tokens_for_user c4Inner "alice").by_user v =
        lookupAL c4Inner.by_user v) ∧
    (∀ inner0 : Inner, revoke_tokens_for_user inner0 "root" = inner0) :=
  revoke_tokens_for_user_spec c4Inner "alice" (by decide) (by decide)

/-- C6 (amended): when `DocHandle::update_presence` fails to send into the
worker's presence ingress (the worker is gone), the error is propagated to
the session's run loop, which handles it as a PER-FRAME error: it sends
`Error{replyTo: frame.id}` (with the channel-closed message), bumps the
frame id counter twice, and CONTINUES the loop rather than aborting the
connection. -/
theorem update_presence_failure_is_per_frame_error (s : Sess) (f : Frame)
    (env : Env) (doc : Nat) (p : Json)
    (hf : f.frame = FrameType.UpdatePresence doc p)
    (hopen : doc ∈ s.openDocs) (hfail : env.updateOk = false) :
    run_step s (.inbound f env) =
      (⟨s.next_frame_id + 2, s.authUser, s.openDocs⟩,
       [Frame.new_reply s.next_frame_id f.id (.Error "channel closed")],
       none) := by
  simp [run_step, process_frame, hf, hopen, hfail]

theorem update_presence_failure_is_per_frame_error_witness :
    run_step c6Sess (SEvent.inbound c6Frame c6Env) =
      (⟨c6Sess.next_frame_id + 2, c6Sess.authUser, c6Sess.openDocs⟩,
       [Frame.new_reply c6Sess.next_frame_id c6Frame.id
         (.Error "channel closed")], none) :=
  update_presence_failure_is_per_frame_error c6Sess c6Frame c6Env 7 Json.null
    rfl (by decide) rfl

/-- C6 (counterexample): a failed presence send on an open doc does NOT
abort the session: the loop continues (exit is `none`) and a per-frame
`Error` reply IS sent, contradicting "aborts rather than replying with a
per-frame Error and continuing". -/
theorem update_presence_failure_not_fatal_cex :
    (run_step c6Sess (SEvent.inbound c6Frame c6Env)).2.2 = none ∧
    (run_step c6Sess (SEvent.inbound c6Frame c6Env)).2.1 =
      [Frame.new_reply 2 (-3) (.Error "channel closed")] :=
  ⟨rfl, rfl⟩

/-- C9 (amended): on the WebSocket carrier the server actually wires up
(`framed_websocket::Adapter`), a binary message is silently ignored — in
every handshake state `poll_next` returns Pending and leaves the state
unchanged — whereas the `FramedConnection` carrier of common/framed.rs
(not used by the server's accept loop) rejects binary messages as
invalid-data errors. -/
theorem adapter_ignores_binary (parse : String → Option Frame)
    (st : ShrubHandshakeState) :
    adapter_poll_next parse st (.msg .binary) = (st, .pending) ∧
    poll_websocket_next parse (.msg .binary) =
      .invalidData "unexpected binary message" :=
  ⟨rfl, rfl⟩

/-- C9 (counterexample): a binary message on the server's Adapter carrier,
before or after the in-band handshake, yields Pending (no item at all), not
an invalid-data read error. -/
theorem adapter_binary_no_error_cex :
    adapter_poll_next (fun _ => none) .Pre (.msg .binary) = (.Pre, .pending) ∧
    adapter_poll_next (fun _ => none) .Post (.msg .binary) = (.Post, .pending) :=
  ⟨rfl, rfl⟩

/-- C10 (amended): in a root session the `MintToken` expiry computation
`Instant::now() + Duration::from_secs(lifetime_seconds)` panics exactly
when `tv_sec + lifetime_seconds` overflows `i64` — so the handler is NOT
total: for `lifetime_seconds ≥ 2^63` it always panics, and it completes
without panic iff `now.tv_sec + lifetime_seconds ≤ i64::MAX`. -/
theorem mint_token_expiry_overflow (s : Sess) (f : Frame) (env : Env)
    (user : String) (info : Option Json) (lifetime : Nat)
    (hf : f.frame = FrameType.MintToken user info lifetime)
    (hroot : s.authUser = "root") :
    ((process_frame s f env).2.2 = StepRes.panicked ↔
      ¬ (env.now + (lifetime : Int) ≤ i64Max)) := by
  by_cases h : env.now + (lifetime : Int) ≤ i64Max <;>
    simp [process_frame, hf, hroot, instant_add_secs, h]

theorem mint_token_expiry_overflow_witness :
    ((process_frame ⟨2, "root", []⟩
      ⟨-2, none, FrameType.MintToken "alice" none 0⟩
      ⟨0, "tok", true⟩).2.2 = StepRes.panicked ↔
      ¬ ((Env.mk 0 "tok" true).now + ((0 : Nat) : Int) ≤ i64Max)) :=
  mint_token_expiry_overflow ⟨2, "root", []⟩
    ⟨-2, none, FrameType.MintToken "alice" none 0⟩ ⟨0, "tok", true⟩
    "alice" none 0 rfl rfl

/-- C10 (counterexample): at `lifetime_seconds = u64::MAX` (with
`Instant::now()` at second 0) the checked addition overflows: the `expect`
in `Instant::add` panics, so the handler does not complete for all `u64`
inputs. -/
theorem mint_token_expiry_overflow_cex :
    instant_add_secs 0 (2 ^ 64 - 1) = none ∧
    (process_frame ⟨2, "root", []⟩
      ⟨-2, none, FrameType.MintToken "alice" none (2 ^ 64 - 1)⟩
      ⟨0, "tok", true⟩).2.2 = StepRes.panicked := by
  exact ⟨by decide, by decide⟩

theorem process_frame_cases (s : Sess) (f : Frame) (env : Env) :
    ((process_frame s f env).2.1 = [] ∧ (process_frame s f env).1 = s) ∨
    (∃ g, (process_frame s f env).2.1 = [g] ∧ g.id = s.next_frame_id ∧
      g.reply_to = some f.id ∧
      (process_frame s f env).1.next_frame_id = s.next_frame_id + 1) := by
  cases hft : f.frame with
  | Authenticate tok => exact Or.inl (by simp [process_frame, hft])
  | Ok => exact Or.inl (by simp [process_frame, hft])
  | Error e => exact Or.inl (by simp [process_frame, hft])
  | MintToken u i l =>
    by_cases hroot : s.authUser = "root"
    · rcases hadd : instant_add_secs env.now l with _ | t
      · exact Or.inl (by simp [process_frame, hft, hroot, hadd])
      · refine Or.inr ⟨Frame.new_reply s.next_frame_id f.id
          (.MintTokenResponse env.mintedToken), ?_, rfl, rfl, ?_⟩ <;>
          simp [process_frame, hft, hroot, hadd]
    · exact Or.inl (by simp [process_frame, hft, hroot])
  | MintTokenResponse tok => exact Or.inl (by simp [process_frame, hft])
  | RevokeTokensForUser u =>
    by_cases hroot : s.authUser = "root"
    · by_cases hu : u = "root"
      · exact Or.inl (by simp [process_frame, hft, hroot, hu])
      · refine Or.inr ⟨Frame.new_reply s.next_frame_id f.id .Ok,
          ?_, rfl, rfl, ?_⟩ <;> simp [process_frame, hft, hroot, hu]
    · exact Or.inl (by simp [process_frame, hft, hroot])
  | Open d =>
    refine Or.inr ⟨Frame.new_reply s.next_frame_id f.id .Ok,
      ?_, rfl, rfl, ?_⟩ <;> simp [process_frame, hft]
  | UpdatePresence d p =>
    by_cases hopen : d ∈ s.openDocs
    · by_cases hok : env.updateOk
      · exact Or.inl (by simp [process_frame, hft, hopen, hok])
      · exact Or.inl (by simp [process_frame, hft, hopen, hok])
    · exact Or.inl (by simp [process_frame, hft, hopen])
  | Presence ups => exact Or.inl (by simp [process_frame, hft])
  | UnknownFrame => exact Or.inl (by simp [process_frame, hft])

theorem process_frame_out (s : Sess) (f : Frame) (env : Env) (s1 : Sess)
    (outs : List Frame) (r : StepRes)
    (hres : process_frame s f env = (s1, outs, r)) :
    (outs = [] ∧ s1 = s) ∨
    (∃ g, outs = [g] ∧ g.id = s.next_frame_id ∧ g.reply_to = some f.id ∧
      s1.next_frame_id = s.next_frame_id + 1) := by
  have hc := process_frame_cases s f env
  rw [hres] at hc
  exact hc

theorem run_step_bounds (s : Sess) (e : SEvent) :
    s.next_frame_id ≤ (run_step s e).1.next_frame_id ∧
    (∀ g ∈ (run_step s e).2.1, s.next_frame_id ≤ g.id ∧
      g.id < (run_step s e).1.next_frame_id) ∧
    List.Pairwise (fun a b : Frame => a.id < b.id) (run_step s e).2.1 := by
  cases e with
  | closedStream => refine ⟨le_refl _, ?_, ?_⟩ <;> simp [run_step]
  | readErr => refine ⟨le_refl _, ?_, ?_⟩ <;> simp [run_step]
  | presenceBatch fs ex =>
    refine ⟨?_, ?_, ?_⟩
    · show s.next_frame_id ≤ s.next_frame_id + 1
      omega
    · intro g hg
      have hg2 : g = Frame.new s.next_frame_id (.Presence (fs ++ ex.flatten)) := by
        simpa [run_step] using hg
      subst hg2
      refine ⟨le_refl _, ?_⟩
      show s.next_frame_id < s.next_frame_id + 1
      omega
    · simp [run_step]
  | inbound f env =>
    rcases hres : process_frame s f env with ⟨s1, outs, r⟩
    have hc := process_frame_out s f env s1 outs r hres
    cases r with
    | ok =>
      have hrs : run_step s (SEvent.inbound f env) = (s1, outs, none) := by
        simp [run_step, hres]
      rw [hrs]
      dsimp only
      rcases hc with ⟨h1, h2⟩ | ⟨g, h1, h2, h3, h4⟩
      · have hs1 : s1.next_frame_id = s.next_frame_id := by rw [h2]
        subst h1
        exact ⟨by omega, by simp, by simp⟩
      · subst h1
        refine ⟨by omega, ?_, by simp⟩
        intro g2 hg2
        have hgg : g2 = g := by simpa using hg2
        subst hgg
        omega
    | panicked =>
      have hrs : run_step s (SEvent.inbound f env) =
          (s1, outs, some .panicked) := by
        simp [run_step, hres]
      rw [hrs]
      dsimp only
      rcases hc with ⟨h1, h2⟩ | ⟨g, h1, h2, h3, h4⟩
      · have hs1 : s1.next_frame_id = s.next_frame_id := by rw [h2]
        subst h1
        exact ⟨by omega, by simp, by simp⟩
      · subst h1
        refine ⟨by omega, ?_, by simp⟩
        intro g2 hg2
        have hgg : g2 = g := by simpa using hg2
        subst hgg
        omega
    | err msg =>
      have hrs : run_step s (SEvent.inbound f env) =
          (⟨s1.next_frame_id + 2, s1.authUser, s1.openDocs⟩,
           outs ++ [Frame.new_reply s1.next_frame_id f.id (.Error msg)],
           none) := by
        simp [run_step, hres]
      rw [hrs]
      dsimp only
      rcases hc with ⟨h1, h2⟩ | ⟨g, h1, h2, h3, h4⟩
      · have hs1 : s1.next_frame_id = s.next_frame_id := by rw [h2]
        subst h1
        refine ⟨by omega, ?_, by simp [Frame.new_reply]⟩
        intro g2 hg2
        have hgg : g2 = Frame.new_reply s1.next_frame_id f.id (.Error msg) := by
          simpa using hg2
        subst hgg
        simp [Frame.new_reply]
        omega
      · subst h1
        refine ⟨by omega, ?_, ?_⟩
        · intro g2 hg2
          rcases (by simpa using hg2 :
              g2 = g ∨ g2 = Frame.new_reply s1.next_frame_id f.id (.Error msg))
            with hgg | hgg <;> subst hgg
          · omega
          · simp [Frame.new_reply]
            omega
        · simp [Frame.new_reply]
          omega
      
theorem run_step_reply_to (s : Sess) (f : Frame) (env : Env) :
    ∀ g ∈ (run_step s (.inbound f env)).2.1, g.reply_to = some f.id := by
  rcases hres : process_frame s f env with ⟨s1, outs, r⟩
  have hc := process_frame_out s f env s1 outs r hres
  have houts : ∀ g ∈ outs, g.reply_to = some f.id := by
    rcases hc with ⟨h1, _⟩ | ⟨g, h1, h2, h3, _⟩
    · subst h1
      simp
    · subst h1
      intro g2 hg2
      have hgg : g2 = g := by simpa using hg2
      rw [hgg, h3]
  cases r with
  | ok =>
    have hrs : run_step s (SEvent.inbound f env) = (s1, outs, none) := by
      simp [run_step, hres]
    rw [hrs]
    exact houts
  | panicked =>
    have hrs : run_step s (SEvent.inbound f env) =
        (s1, outs, some .panicked) := by
      simp [run_step, hres]
    rw [hrs]
    exact houts
  | err msg =>
    have hrs : run_step s (SEvent.inbound f env) =
        (⟨s1.next_frame_id + 2, s1.authUser, s1.openDocs⟩,
         outs ++ [Frame.new_reply s1.next_frame_id f.id (.Error msg)],
         none) := by
      simp [run_step, hres]
    rw [hrs]
    intro g2 hg2
    rcases (by simpa using hg2 :
        g2 ∈ outs ∨ g2 = Frame.new_reply s1.next_frame_id f.id (.Error msg))
      with h | h
    · exact houts g2 h
    · rw [h]
      rfl

theorem run_events_bounds (events : List SEvent) : ∀ s : Sess,
    (∀ g ∈ run_events s events, s.next_frame_id ≤ g.id) ∧
    List.Pairwise (fun a b : Frame => a.id < b.id) (run_events s events) := by
  induction events with
  | nil =>
    intro s
    simp [run_events]
  | cons e rest ih =>
    intro s
    rcases hstep : run_step s e with ⟨s1, outs, ex⟩
    have hb := run_step_bounds s e
    rw [hstep] at hb
    obtain ⟨hb1, hb2, hb3⟩ := hb
    replace hb1 : s.next_frame_id ≤ s1.next_frame_id := hb1
    replace hb2 : ∀ g ∈ outs, s.next_frame_id ≤ g.id ∧
        g.id < s1.next_frame_id := hb2
    replace hb3 : List.Pairwise (fun a b : Frame => a.id < b.id) outs := hb3
    cases ex with
    | some ex0 =>
      have hre : run_events s (e :: rest) = outs := by
        simp [run_events, hstep]
      rw [hre]
      exact ⟨fun g hg => (hb2 g hg).1, hb3⟩
    | none =>
      have hre : run_events s (e :: rest) = outs ++ run_events s1 rest := by
        simp [run_events, hstep]
      rw [hre]
      obtain ⟨ih1, ih2⟩ := ih s1
      constructor
      · intro g hg
        rcases List.mem_append.mp hg with h | h
        · exact (hb2 g h).1
        · exact le_trans hb1 (ih1 g h)
      · rw [List.pairwise_append]
        exact ⟨hb3, ih2, fun a ha b hbm =>
          lt_of_lt_of_le (hb2 a ha).2 (ih1 b hbm)⟩

theorem session_accept_cases (inner : Inner) (now : Nat) (f : Frame) :
    (session_accept inner now f = ([], .error "Expected Authenticate frame")) ∨
    (session_accept inner now f =
      ([Frame.new_reply 1 f.id (.Error "invalid token")],
       .error "invalid token")) ∨
    (∃ e, session_accept inner now f =
      ([Frame.new_reply 1 f.id .Ok], .ok e)) := by
  cases hft : f.frame with
  | Authenticate tok =>
    rcases h : authenticate inner tok now with _ | e
    · exact Or.inr (Or.inl (by simp [session_accept, hft, h]))
    · exact Or.inr (Or.inr ⟨e, by simp [session_accept, hft, h]⟩)
  | Ok => exact Or.inl (by simp [session_accept, hft])
  | Error e => exact Or.inl (by simp [session_accept, hft])
  | MintToken u i l => exact Or.inl (by simp [session_accept, hft])
  | MintTokenResponse tok => exact Or.inl (by simp [session_accept, hft])
  | RevokeTokensForUser u => exact Or.inl (by simp [session_accept, hft])
  | Open d => exact Or.inl (by simp [session_accept, hft])
  | UpdatePresence d p => exact Or.inl (by simp [session_accept, hft])
  | Presence ups => exact Or.inl (by simp [session_accept, hft])
  | UnknownFrame => exact Or.inl (by simp [session_accept, hft])

/-- C5: over one whole connection (the accept stage and then any schedule of
run-loop events) the frames the server sends carry strictly increasing ids;
the first sent frame — the authentication reply or the best-effort
authentication error — has id 1; every accept-stage frame replies to the
first inbound frame's id; and any run-loop frame that carries `replyTo` was
produced while processing an inbound frame and carries that frame's id, so
every reply names the id of a previously received inbound frame (presence
broadcasts carry no `replyTo`). -/
theorem session_frame_ids_strictly_increasing (inner : Inner) (now : Nat)
    (first : Frame) (events : List SEvent) :
    List.Pairwise (· < ·)
      ((connection_trace inner now first events).map Frame.id) ∧
    (∀ g, (connection_trace inner now first events).head? = some g →
      g.id = 1) ∧
    (∀ g ∈ (session_accept inner now first).1, g.reply_to = some first.id) ∧
    (∀ (s : Sess) (e : SEvent), ∀ g ∈ (run_step s e).2.1, ∀ r : Int,
      g.reply_to = some r →
      ∃ f2 env, e = SEvent.inbound f2 env ∧ r = f2.id) := by
  refine ⟨?_, ?_, ?_, ?_⟩
  · rcases session_accept_cases inner now first with hs | hs | ⟨e, hs⟩ <;>
      simp only [connection_trace, hs]
    · simp
    · simp
    · obtain ⟨hb1, hb2⟩ := run_events_bounds events ⟨2, e.user, []⟩
      replace hb1 : ∀ g ∈ run_events ⟨2, e.user, []⟩ events,
          (2 : Int) ≤ g.id := hb1
      rw [List.singleton_append, List.map_cons, List.pairwise_cons]
      constructor
      · intro b hbmem
        rcases List.mem_map.mp hbmem with ⟨g, hg, hgb⟩
        have h2 := hb1 g hg
        rw [← hgb]
        show (1 : Int) < g.id
        omega
      · rw [List.pairwise_map]
        exact hb2
  · intro g
    rcases session_accept_cases inner now first with hs | hs | ⟨e, hs⟩ <;>
      simp only [connection_trace, hs]
    · simp
    · intro hg
      simp at hg
      subst hg
      rfl
    · rw [List.singleton_append]
      intro hg
      simp at hg
      subst hg
      rfl
  · rcases session_accept_cases inner now first with hs | hs | ⟨e, hs⟩ <;>
      rw [hs] <;> intro g hg <;> simp at hg <;> subst hg <;> rfl
  · intro s e g hg r hr
    cases e with
    | closedStream => simp [run_step] at hg
    | readErr => simp [run_step] at hg
    | presenceBatch fs ex =>
      have hgg : g = Frame.new s.next_frame_id (.Presence (fs ++ ex.flatten)) := by
        simpa [run_step] using hg
      rw [hgg] at hr
      exact absurd hr (by simp [Frame.new])
    | inbound f2 env =>
      have hrt := run_step_reply_to s f2 env g hg
      rw [hrt] at hr
      exact ⟨f2, env, rfl, (Option.some.inj hr).symm⟩

/-- C7: the worker's presence branch overwrites
`presence_map[frame.client]` with `(last_update, frame)` and leaves every
other presence entry, the client map and `next_handle_id` unchanged; its
successful deliveries are exactly one `[frame]` payload to the egress of
each client-map entry whose handle id differs from the sender's and whose
channel has capacity — so a blocked subscriber is dropped without affecting
the others, and the emitting client never receives its own update. -/
theorem worker_presence_step_spec (w : WorkerState) (lu : Nat)
    (frame : PresenceFrame) (ready : Nat → Bool) :
    lookupAL (worker_presence_step w lu frame ready).1.presence_map
      frame.client = some (lu, frame) ∧
    (∀ c, c ≠ frame.client →
      lookupAL (worker_presence_step w lu frame ready).1.presence_map c =
        lookupAL w.presence_map c) ∧
    (worker_presence_step w lu frame ready).1.client_map = w.client_map ∧
    (worker_presence_step w lu frame ready).1.next_handle_id =
      w.next_handle_id ∧
    (∀ d, d ∈ (worker_presence_step w lu frame ready).2 ↔
      ∃ peer ∈ w.client_map, peer.1 ≠ frame.client ∧ ready peer.2 = true ∧
        d = (peer.2, [frame])) := by
  refine ⟨?_, ?_, rfl, rfl, ?_⟩
  · exact lookupAL_insertAL_self w.presence_map frame.client (lu, frame)
  · intro c hc
    exact lookupAL_insertAL_ne w.presence_map frame.client c (lu, frame) hc
  · intro d
    show d ∈ w.client_map.filterMap _ ↔ _
    rw [List.mem_filterMap]
    constructor
    · rintro ⟨peer, hmem, hpeer⟩
      by_cases h1 : peer.1 ≠ frame.client
      · by_cases h2 : ready peer.2 = true
        · rw [if_pos h1, if_pos h2] at hpeer
          exact ⟨peer, hmem, h1, h2, (Option.some.inj hpeer).symm⟩
        · rw [if_pos h1, if_neg h2] at hpeer
          exact absurd hpeer (by simp)
      · rw [if_neg h1] at hpeer
        exact absurd hpeer (by simp)
    · rintro ⟨peer, hmem, h1, h2, hd⟩
      refine ⟨peer, hmem, ?_⟩
      rw [if_pos h1, if_pos h2, hd]

theorem digitsLE_length (k : Nat) : ∀ n, (digitsLE k n).length = k := by
  induction k with
  | zero => intro n; rfl
  | succ k ih => intro n; simp [digitsLE, ih]

theorem digitsLE_lt (k : Nat) : ∀ n, ∀ d ∈ digitsLE k n, d < 32 := by
  induction k with
  | zero =>
    intro n d hd
    simp [digitsLE] at hd
  | succ k ih =>
    intro n d hd
    simp only [digitsLE, List.mem_cons] at hd
    rcases hd with h | h
    · subst h
      omega
    · exact ih _ d h

theorem decodeChar_encodeChar : ∀ d < 32, decodeChar (encodeChar d) = some d := by
  decide

theorem decodeChars_map (ds : List Nat) (h : ∀ d ∈ ds, d < 32) :
    decodeChars (ds.map encodeChar) = some ds := by
  induction ds with
  | nil => rfl
  | cons d rest ih =>
    have h1 : d < 32 := h d (by simp)
    have h2 := ih (fun x hx => h x (by simp [hx]))
    simp [decodeChars, decodeChar_encodeChar d h1, h2]

theorem foldMod_digits (k : Nat) : ∀ (acc n : Nat), n < 32 ^ k →
    acc * 32 ^ k + n < u128Mod →
    ((digitsLE k n).reverse).foldl (fun a d => (a * 32 + d) % u128Mod) acc =
      acc * 32 ^ k + n := by
  induction k with
  | zero =>
    intro acc n h1 h2
    simp [digitsLE]
    omega
  | succ k ih =>
    intro acc n h1 h2
    have hd : digitsLE (k + 1) n = n % 32 :: digitsLE k (n / 32) := rfl
    have key : (acc * 32 ^ k + n / 32) * 32 + n % 32 = acc * 32 ^ (k + 1) + n := by
      calc (acc * 32 ^ k + n / 32) * 32 + n % 32
          = acc * (32 ^ k * 32) + (32 * (n / 32) + n % 32) := by ring
        _ = acc * 32 ^ (k + 1) + n := by rw [Nat.div_add_mod, ← pow_succ]
    have ha : n / 32 < 32 ^ k := by
      rw [pow_succ] at h1
      omega
    have hb : acc * 32 ^ k + n / 32 < u128Mod := by
      omega
    have hih := ih acc (n / 32) ha hb
    rw [hd, List.reverse_cons, List.foldl_append, hih]
    simp only [List.foldl_cons, List.foldl_nil]
    rw [key]
    exact Nat.mod_eq_of_lt h2

theorem ulid_roundtrip (n : Nat) (h : n < u128Mod) :
    ulidDecode (ulidEncode n) = some n := by
  have hlen : ((digitsLE 26 n).reverse.map encodeChar).length = 26 := by
    simp [digitsLE_length]
  have hlt : ∀ d ∈ (digitsLE 26 n).reverse, d < 32 := by
    intro d hd
    exact digitsLE_lt 26 n d (List.mem_reverse.mp hd)
  have hdc := decodeChars_map ((digitsLE 26 n).reverse) hlt
  have hn26 : n < 32 ^ 26 := by
    have h32 : u128Mod ≤ 32 ^ 26 := by norm_num [u128Mod]
    omega
  have hfold := foldMod_digits 26 0 n hn26 (by simpa using h)
  unfold ulidDecode ulidEncode
  have hdata : (String.mk ((digitsLE 26 n).reverse.map encodeChar)).data =
      (digitsLE 26 n).reverse.map encodeChar := rfl
  rw [hdata, if_pos hlen, hdc]
  refine congrArg some ?_
  show List.foldl (fun a d => (a * 32 + d) % u128Mod) 0
    ((digitsLE 26 n).reverse) = n
  rw [hfold]
  omega

theorem optJsonField_eq (fields : List (String × Json)) (k : String)
    (o : Option Json) (hlook : lookupAL fields k = some (serializeOpt o))
    (hwf : noSomeNull o = true) : optJsonField fields k = o := by
  rcases o with _ | v
  · simp [optJsonField, hlook, serializeOpt]
  · rcases v with _ | b | m | st | el | fl <;>
      simp_all [optJsonField, serializeOpt, noSomeNull]

theorem optI32Field_serialized (fields : List (String × Json)) (k : String)
    (o : Option Int) (hlook : lookupAL fields k = some (serializeOptI32 o))
    (hwf : wfOptI32 o = true) : optI32Field fields k = some o := by
  rcases o with _ | r
  · simp [optI32Field, hlook, serializeOptI32]
  · have hr : fitsI32 r = true := by simpa [wfOptI32] using hwf
    simp [optI32Field, hlook, serializeOptI32, parseI32, hr]

theorem parsePresenceFrame_roundtrip (p : PresenceFrame)
    (hwf : wfPresenceFrame p = true) :
    parsePresenceFrame (serializePresenceFrame p) = some p := by
  obtain ⟨pc, pd, pu, pi, pp⟩ := p
  obtain ⟨⟨⟨hc, hd⟩, hi⟩, hp⟩ :
      ((pc < u32Mod ∧ pd < u128Mod) ∧ noSomeNull pi = true) ∧
        noSomeNull pp = true := by
    simpa [wfPresenceFrame, Bool.and_eq_true, decide_eq_true_eq, and_assoc]
      using hwf
  have hinfo : optJsonField [("client", Json.num pc),
      ("doc", serializeDocId pd), ("user", Json.str pu),
      ("info", serializeOpt pi), ("presence", serializeOpt pp)]
      "info" = pi :=
    optJsonField_eq _ _ _ (by simp [lookupAL]) hi
  have hpres : optJsonField [("client", Json.num pc),
      ("doc", serializeDocId pd), ("user", Json.str pu),
      ("info", serializeOpt pi), ("presence", serializeOpt pp)]
      "presence" = pp :=
    optJsonField_eq _ _ _ (by simp [lookupAL]) hp
  simp [parsePresenceFrame, serializePresenceFrame, lookupAL, parseU32,
    parseStr, hc, hinfo, hpres,
    show parseDocId (serializeDocId pd) = some pd from ulid_roundtrip pd hd]

theorem parsePresenceList_roundtrip (ups : List PresenceFrame)
    (h : ups.all wfPresenceFrame = true) :
    parsePresenceList (ups.map serializePresenceFrame) = some ups := by
  induction ups with
  | nil => rfl
  | cons p rest ih =>
    simp only [List.all_cons, Bool.and_eq_true] at h
    simp [parsePresenceList, parsePresenceFrame_roundtrip p h.1, ih h.2]

/-- C8 (amended): serializing a `Frame` and parsing the result yields the
original frame, up to JSON field ordering (objects are compared by key
lookup), PROVIDED no optional JSON field (`info` of `MintToken`,
`info`/`presence` of a `PresenceFrame`) holds `Some(Value::Null)` — serde
serializes `Some(Null)` and `None` both as `null`, so `Some(Null)` collapses
to `None` on the round trip (see the counterexample). -/
theorem frame_roundtrip (f : Frame) (h : wellFormedFrame f = true) :
    parseFrame (serializeFrame f) = some f := by
  rcases f with ⟨fid, frt, ff⟩
  obtain ⟨⟨hid, hrt⟩, hft⟩ : (fitsI32 fid = true ∧ wfOptI32 frt = true) ∧
      wfFrameType ff = true := by
    simpa [wellFormedFrame, Bool.and_eq_true] using h
  have hidp : parseI32 (Json.num fid) = some fid := by
    simp [parseI32, hid]
  have hrtp : ∀ tail : List (String × Json),
      optI32Field (("id", Json.num fid) ::
        ("replyTo", serializeOptI32 frt) :: tail) "replyTo" = some frt :=
    fun tail => optI32Field_serialized _ _ _ (by simp [lookupAL]) hrt
  cases ff with
  | Authenticate tok =>
    simp [parseFrame, serializeFrame, frameTypeFields, lookupAL, hidp, hrtp,
      parseFrameType, parseStr]
  | Ok =>
    simp [parseFrame, serializeFrame, frameTypeFields, lookupAL, hidp, hrtp,
      parseFrameType, parseStr]
  | Error e =>
    simp [parseFrame, serializeFrame, frameTypeFields, lookupAL, hidp, hrtp,
      parseFrameType, parseStr]
  | MintToken u i l =>
    obtain ⟨hinn, hl⟩ : noSomeNull i = true ∧ l < u64Mod := by
      simpa [wfFrameType, Bool.and_eq_true, decide_eq_true_eq] using hft
    have hinfo : optJsonField (("id", Json.num fid) ::
        ("replyTo", serializeOptI32 frt) ::
        [("type", Json.str "mintToken"), ("user", Json.str u),
         ("info", serializeOpt i), ("lifetime_seconds", Json.num l)])
        "info" = i :=
      optJsonField_eq _ _ _ (by simp [lookupAL]) hinn
    simp [parseFrame, serializeFrame, frameTypeFields, lookupAL, hidp, hrtp,
      parseFrameType, parseStr, parseU64, hl, hinfo]
  | MintTokenResponse tok =>
    simp [parseFrame, serializeFrame, frameTypeFields, lookupAL, hidp, hrtp,
      parseFrameType, parseStr]
  | RevokeTokensForUser u =>
    simp [parseFrame, serializeFrame, frameTypeFields, lookupAL, hidp, hrtp,
      parseFrameType, parseStr]
  | Open d =>
    have hd : d < u128Mod := by
      simpa [wfFrameType, decide_eq_true_eq] using hft
    simp [parseFrame, serializeFrame, frameTypeFields, lookupAL, hidp, hrtp,
      parseFrameType, parseStr,
      show parseDocId (serializeDocId d) = some d from ulid_roundtrip d hd]
  | UpdatePresence d p =>
    have hd : d < u128Mod := by
      simpa [wfFrameType, decide_eq_true_eq] using hft
    simp [parseFrame, serializeFrame, frameTypeFields, lookupAL, hidp, hrtp,
      parseFrameType, parseStr,
      show parseDocId (serializeDocId d) = some d from ulid_roundtrip d hd]
  | Presence ups =>
    have hu : ups.all wfPresenceFrame = true := by
      simpa [wfFrameType] using hft
    simp [parseFrame, serializeFrame, frameTypeFields, lookupAL, hidp, hrtp,
      parseFrameType, parseStr, parsePresenceList_roundtrip ups hu]
  | UnknownFrame =>
    simp [parseFrame, serializeFrame, frameTypeFields, lookupAL, hidp, hrtp,
      parseFrameType, parseStr]

theorem frame_roundtrip_witness :
    parseFrame (serializeFrame c8Collapsed) = some c8Collapsed :=
  frame_roundtrip c8Collapsed (by decide)

/-- C8 (counterexample): the frame
`{id: 1, type: MintToken, user: "alice", info: Some(Null), lifetimeSeconds: 0}`
serializes `info` to `null`, which parses back as `None`: the round trip
yields a different frame, so serialize-then-parse is not the identity on
every valid `Frame` value. -/
theorem frame_roundtrip_cex :
    parseFrame (serializeFrame c8Bad) = some c8Collapsed ∧
    c8Collapsed ≠ c8Bad := by
  constructor
  · rfl
  · intro he
    simp [c8Collapsed, c8Bad] at he

theorem lookupAL_eq_none {κ α : Type} [DecidableEq κ] (l : List (κ × α))
    (k : κ) : lookupAL l k = none ↔ k ∉ l.map (·.1) := by
  induction l with
  | nil => simp [lookupAL]
  | cons p rest ih =>
    rw [lookupAL, List.map_cons]
    by_cases h : p.1 = k
    · simp [h]
    · rw [if_neg h, ih]
      constructor
      · intro hnm hc
        rcases List.mem_cons.mp hc with he | hm
        · exact h he.symm
        · exact hnm hm
      · intro hnm hm
        exact hnm (List.mem_cons_of_mem _ hm)

theorem eraseKeyAL_sublist {κ α : Type} [DecidableEq κ] (l : List (κ × α))
    (k : κ) : List.Sublist (eraseKeyAL l k) l := by
  induction l with
  | nil => simp [eraseKeyAL]
  | cons p rest ih =>
    by_cases h : p.1 = k
    · rw [eraseKeyAL, if_pos h]
      exact ih.cons p
    · rw [eraseKeyAL, if_neg h]
      exact ih.cons₂ p

theorem mem_eraseKeyAL {κ α : Type} [DecidableEq κ] (l : List (κ × α))
    (k : κ) (p : κ × α) : p ∈ eraseKeyAL l k ↔ p ∈ l ∧ p.1 ≠ k := by
  induction l with
  | nil => simp [eraseKeyAL]
  | cons q rest ih =>
    by_cases h : q.1 = k
    · rw [eraseKeyAL, if_pos h, ih]
      constructor
      · exact fun ⟨hm, hne⟩ => ⟨List.mem_cons_of_mem q hm, hne⟩
      · rintro ⟨hm, hne⟩
        rcases List.mem_cons.mp hm with he | hm2
        · exact absurd (he ▸ h) hne
        · exact ⟨hm2, hne⟩
    · rw [eraseKeyAL, if_neg h]
      constructor
      · intro hm
        rcases List.mem_cons.mp hm with he | hm2
        · exact ⟨he ▸ List.mem_cons_self q rest, he ▸ h⟩
        · exact ⟨List.mem_cons_of_mem q ((ih.mp hm2).1), (ih.mp hm2).2⟩
      · rintro ⟨hm, hne⟩
        rcases List.mem_cons.mp hm with he | hm2
        · exact he ▸ List.mem_cons_self q _
        · exact List.mem_cons_of_mem q (ih.mpr ⟨hm2, hne⟩)

theorem not_mem_keys_eraseKeyAL {κ α : Type} [DecidableEq κ]
    (l : List (κ × α)) (k : κ) : k ∉ (eraseKeyAL l k).map (·.1) := by
  intro hk
  rcases List.mem_map.mp hk with ⟨p, hp, hpk⟩
  exact ((mem_eraseKeyAL l k p).mp hp).2 hpk

theorem nodup_keys_eraseKeyAL {κ α : Type} [DecidableEq κ]
    (l : List (κ × α)) (k : κ) (h : (l.map (·.1)).Nodup) :
    ((eraseKeyAL l k).map (·.1)).Nodup :=
  h.sublist ((eraseKeyAL_sublist l k).map (·.1))

theorem eraseKeyAL_of_not_mem {κ α : Type} [DecidableEq κ]
    {l : List (κ × α)} {k : κ} (h : k ∉ l.map (·.1)) : eraseKeyAL l k = l := by
  induction l with
  | nil => rfl
  | cons p rest ih =>
    simp only [List.map_cons, List.mem_cons] at h
    push_neg at h
    rw [eraseKeyAL, if_neg (fun he => h.1 he.symm), ih h.2]

theorem mem_removeTokens (l : List (String × Entry)) (ts : List String)
    (p : String × Entry) : p ∈ removeTokens l ts ↔ p ∈ l ∧ p.1 ∉ ts := by
  induction ts generalizing l with
  | nil => simp [removeTokens]
  | cons t0 rest ih =>
    have hstep : removeTokens l (t0 :: rest) =
        removeTokens (eraseKeyAL l t0) rest := rfl
    rw [hstep, ih, mem_eraseKeyAL]
    simp only [List.mem_cons]
    constructor
    · rintro ⟨⟨hm, h0⟩, hr⟩
      exact ⟨hm, fun hc => hc.elim h0 hr⟩
    · rintro ⟨hm, hc⟩
      push_neg at hc
      exact ⟨⟨hm, hc.1⟩, hc.2⟩

theorem nodup_keys_removeTokens (l : List (String × Entry)) (ts : List String)
    (h : (l.map (·.1)).Nodup) : ((removeTokens l ts).map (·.1)).Nodup := by
  induction ts generalizing l with
  | nil => exact h
  | cons t0 rest ih => exact ih _ (nodup_keys_eraseKeyAL l t0 h)

theorem wellFormed_new (root : String) :
    WellFormed ⟨root, [], []⟩ := by
  refine ⟨List.nodup_nil, List.nodup_nil, ?_, ?_⟩ <;> intro p hp <;> simp at hp

theorem revoke_tokens_for_user_preserves_wf (inner : Inner) (u : String)
    (hwf : WellFormed inner) : WellFormed (revoke_tokens_for_user inner u) := by
  obtain ⟨h1, h2, h3, h4⟩ := hwf
  by_cases hroot : u = "root"
  · rw [revoke_tokens_for_user, if_pos hroot]
    exact ⟨h1, h2, h3, h4⟩
  rcases hbu : lookupAL inner.by_user u with _ | ts
  · have hR : revoke_tokens_for_user inner u =
        ⟨inner.root_token, inner.by_token, eraseKeyAL inner.by_user u⟩ := by
      unfold revoke_tokens_for_user
      rw [if_neg hroot, hbu]
    rw [hR]
    refine ⟨h1, nodup_keys_eraseKeyAL _ _ h2, ?_, ?_⟩
    · intro p hp
      have hold := h3 p hp
      by_cases hu : p.2.user = u
      · rw [hu, hbu] at hold
        simp at hold
      · show p.1 ∈ (lookupAL (eraseKeyAL inner.by_user u) p.2.user).getD []
        rw [lookupAL_eraseKeyAL, if_neg hu]
        exact hold
    · intro q hq t ht
      exact h4 q ((mem_eraseKeyAL _ _ _).mp hq).1 t ht
  · have hR : revoke_tokens_for_user inner u =
        ⟨inner.root_token, removeTokens inner.by_token ts,
          eraseKeyAL inner.by_user u⟩ := by
      unfold revoke_tokens_for_user
      rw [if_neg hroot, hbu]
    rw [hR]
    refine ⟨nodup_keys_removeTokens _ _ h1, nodup_keys_eraseKeyAL _ _ h2,
      ?_, ?_⟩
    · intro p hp
      obtain ⟨hpm, hpts⟩ := (mem_removeTokens _ _ _).mp hp
      have hold := h3 p hpm
      by_cases hu : p.2.user = u
      · rw [hu, hbu] at hold
        simp at hold
        exact absurd hold hpts
      · show p.1 ∈ (lookupAL (eraseKeyAL inner.by_user u) p.2.user).getD []
        rw [lookupAL_eraseKeyAL, if_neg hu]
        exact hold
    · intro q hq t ht
      obtain ⟨hq2, hqne⟩ := (mem_eraseKeyAL _ _ _).mp hq
      have h4t := h4 q hq2 t ht
      have hts : t ∉ ts := by
        intro hin
        have hqu := lookupAL_mem hbu
        have h4u := h4 (u, ts) hqu t hin
        rcases hlk : lookupAL inner.by_token t with _ | e
        · rw [hlk] at h4u
          simp at h4u
        · rw [hlk] at h4u h4t
          simp at h4u h4t
          exact hqne (h4t ▸ h4u)
      show (lookupAL (removeTokens inner.by_token ts) t).map Entry.user =
        some q.1
      rw [lookupAL_removeTokens, if_neg hts]
      exact h4t

theorem mint_wf_general (inner : Inner) (entry : Entry) (token : String)
    (hwf : WellFormed inner)
    (hfresh : lookupAL inner.by_token token = none) :
    WellFormed ⟨inner.root_token, insertAL inner.by_token token entry,
      insertAL inner.by_user entry.user
        ((lookupAL inner.by_user entry.user).getD [] ++ [token])⟩ := by
  obtain ⟨h1, h2, h3, h4⟩ := hwf
  have htk : token ∉ inner.by_token.map (·.1) :=
    (lookupAL_eq_none _ _).mp hfresh
  have herase : eraseKeyAL inner.by_token token = inner.by_token :=
    eraseKeyAL_of_not_mem htk
  refine ⟨?_, ?_, ?_, ?_⟩
  · show ((insertAL inner.by_token token entry).map (·.1)).Nodup
    rw [insertAL, herase, List.map_cons]
    exact List.nodup_cons.mpr ⟨htk, h1⟩
  · show ((insertAL inner.by_user entry.user _).map (·.1)).Nodup
    rw [insertAL, List.map_cons]
    exact List.nodup_cons.mpr
      ⟨not_mem_keys_eraseKeyAL _ _, nodup_keys_eraseKeyAL _ _ h2⟩
  · intro p hp
    rw [insertAL, herase] at hp
    rcases List.mem_cons.mp hp with hpe | hpm
    · subst hpe
      show token ∈ (lookupAL (insertAL inner.by_user entry.user _)
        entry.user).getD []
      rw [lookupAL_insertAL_self]
      simp
    · have hold := h3 p hpm
      by_cases hu : p.2.user = entry.user
      · show p.1 ∈ (lookupAL (insertAL inner.by_user entry.user _)
          p.2.user).getD []
        rw [hu, lookupAL_insertAL_self]
        simp only [Option.getD_some]
        exact List.mem_append_left _ (hu ▸ hold)
      · show p.1 ∈ (lookupAL (insertAL inner.by_user entry.user _)
          p.2.user).getD []
        rw [lookupAL_insertAL_ne _ _ _ _ hu]
        exact hold
  · intro q hq t ht
    rw [insertAL] at hq
    rcases List.mem_cons.mp hq with hqe | hqm
    · subst hqe
      rcases List.mem_append.mp ht with hto | htt
      · rcases hbu : lookupAL inner.by_user entry.user with _ | ts
        · rw [hbu] at hto
          simp at hto
        · rw [hbu] at hto
          simp only [Option.getD_some] at hto
          have hq2 := lookupAL_mem hbu
          have h4t := h4 (entry.user, ts) hq2 t hto
          rcases hlk : lookupAL inner.by_token t with _ | e
          · rw [hlk] at h4t
            simp at h4t
          · have htne : t ≠ token := by
              intro he
              rw [he, hfresh] at hlk
              simp at hlk
            show (lookupAL (insertAL inner.by_token token entry) t).map
              Entry.user = some (entry.user, ts).1
            rw [lookupAL_insertAL_ne _ _ _ _ htne, hlk]
            rw [hlk] at h4t
            exact h4t
      · simp only [List.mem_singleton] at htt
        subst htt
        show (lookupAL (insertAL inner.by_token t entry) t).map
          Entry.user = some _
        rw [lookupAL_insertAL_self]
        simp
    · obtain ⟨hq2, hqne⟩ := (mem_eraseKeyAL _ _ _).mp hqm
      have h4t := h4 q hq2 t ht
      rcases hlk : lookupAL inner.by_token t with _ | e
      · rw [hlk] at h4t
        simp at h4t
      · have htne : t ≠ token := by
          intro he
          rw [he, hfresh] at hlk
          simp at hlk
        show (lookupAL (insertAL inner.by_token token entry) t).map
          Entry.user = some q.1
        rw [lookupAL_insertAL_ne _ _ _ _ htne, hlk]
        rw [hlk] at h4t
        exact h4t

theorem mint_token_preserves_wf (inner : Inner) (entry : Entry) (rand : String)
    (hwf : WellFormed inner)
    (hfresh : lookupAL inner.by_token ("shrubtoken1:" ++ rand) = none) :
    WellFormed (mint_token inner entry rand).1 :=
  mint_wf_general inner entry ("shrubtoken1:" ++ rand) hwf hfresh

end Shrubbery
